import Mathlib

/-!
# dalec rpmbundle frontend: graph compilation and orchestration

A shallow embedding of `frontend/rpmbundle/build.go` and `cmd/frontend/main.go`.

* Go `error` values are `GoError`; a function returning `(T, error)` returns `Except GoError T`.
* LLB states (`llb.State`) are the terms of `State`; the file actions of `llb.File` are
  `FileAction`.
* A Go `map[string]Source` is a list of entries in the order in which `range` yields them.
* Collaborators that live outside the two source files (source resolution, the template,
  the build client, the Go standard library) are fields of environment records.
-/

namespace Dalec

/-! ## Go errors and formatting -/

/-- Go error values: `errorString` is an error made by `errors.New` or by `fmt.Errorf`
without `%w`; `wrapError` is one made by `fmt.Errorf` with `%w`, holding the formatted
message and the wrapped error. -/
inductive GoError where
  | errorString (msg : String)
  | wrapError (msg : String) (err : GoError)
  deriving DecidableEq, Repr

/-- The method `Error()`: the message of an error. -/
def GoError.Error : GoError → String
  | .errorString msg => msg
  | .wrapError msg _ => msg

/-- The method `Unwrap()`: the error wrapped by `%w`, if any. -/
def GoError.Unwrap : GoError → Option GoError
  | .errorString _ => none
  | .wrapError _ err => some err

/-- The digit table `lowerhex` of package strconv. -/
def lowerhex (n : Nat) : Char :=
  "0123456789abcdef".toList.getD (n % 16) (Char.ofNat 48)

/-- The function `strconv.IsPrint`: the Latin-1 fast path is the code of the standard
library; `table` stands for its Unicode tables, used above U+00FF. -/
def IsPrint (table : Nat → Bool) (r : Char) : Bool :=
  if r.toNat ≤ 0xFF then
    if 0x20 ≤ r.toNat ∧ r.toNat ≤ 0x7E then true
    else if 0xA1 ≤ r.toNat ∧ r.toNat ≤ 0xFF then r.toNat != 0xAD
    else false
  else table r.toNat

/-- The function `appendEscapedRune` of package strconv for the double quote, neither
ASCII-only nor graphic-only, on one valid rune. -/
def appendEscapedRune (table : Nat → Bool) (r : Char) : List Char :=
  let bs := Char.ofNat 92
  if r = Char.ofNat 34 ∨ r = bs then [bs, r]
  else if IsPrint table r then [r]
  else if r.toNat = 7 then [bs, Char.ofNat 97]
  else if r.toNat = 8 then [bs, Char.ofNat 98]
  else if r.toNat = 12 then [bs, Char.ofNat 102]
  else if r.toNat = 10 then [bs, Char.ofNat 110]
  else if r.toNat = 13 then [bs, Char.ofNat 114]
  else if r.toNat = 9 then [bs, Char.ofNat 116]
  else if r.toNat = 11 then [bs, Char.ofNat 118]
  else if r.toNat < 0x20 ∨ r.toNat = 0x7F then
    [bs, Char.ofNat 120, lowerhex (r.toNat / 16), lowerhex (r.toNat % 16)]
  else if r.toNat < 0x10000 then
    [bs, Char.ofNat 117] ++ [12, 8, 4, 0].map (fun s => lowerhex (r.toNat / 2 ^ s % 16))
  else
    [bs, Char.ofNat 85] ++
      [28, 24, 20, 16, 12, 8, 4, 0].map (fun s => lowerhex (r.toNat / 2 ^ s % 16))

/-- The function `strconv.Quote`, which formats the verb `%q` of package fmt for a string. -/
def Quote (table : Nat → Bool) (s : String) : String :=
  String.mk ([Char.ofNat 34] ++ s.toList.flatMap (appendEscapedRune table) ++ [Char.ofNat 34])

/-- A rune that `strconv.Quote` leaves as it is whatever the tables: printable ASCII other
than the double quote and the backslash. -/
def plainRune (r : Char) : Bool :=
  decide (0x20 ≤ r.toNat ∧ r.toNat ≤ 0x7E ∧ r ≠ Char.ofNat 34 ∧ r ≠ Char.ofNat 92)

/-! ## Targets -/

/-- The constant `targetBuildroot`. -/
def targetBuildroot : String := "buildroot"

/-- The map `builtinTargets`, a set of strings: its keys. -/
def builtinTargets : List String := [targetBuildroot]

/-- The function `validateTarget`; `none` is the nil error. -/
def validateTarget (table : Nat → Bool) (t : String) : Option GoError :=
  if t = "" then none
  else
    let ok := decide (t ∈ builtinTargets)
    if !ok then some (.errorString ("unknown target " ++ Quote table t))
    else none

/-! ## The instruction graph -/

/-- File content, the Go type `[]byte`. -/
abbrev Bytes := List Nat

/-- The name attached to a vertex: `llb.WithCustomName` and `frontend.WithInternalName`
(and their `f` variants, whose format is applied before the name is stored). -/
inductive OpName where
  | custom (name : String)
  | internal (name : String)
  deriving DecidableEq, Repr

/-- The actions of `llb.File`: `llb.Mkdir`, `llb.Mkfile` and `llb.Copy`, over the type of
states `σ`. -/
inductive FileAction (σ : Type) where
  | mkdir (path : String) (mode : Nat)
  | mkfile (path : String) (mode : Nat) (data : Bytes)
  | copy (src : σ) (srcPath dstPath : String)

/-- A mount of `llb.AddMount`: the target path, the mounted state and `llb.Readonly`. -/
structure Mount (σ : Type) where
  target : String
  src : σ
  readonly : Bool

/-- The type `llb.State`, as the term that builds it: `scratch` is `llb.Scratch()`,
`source` is a vertex made outside this package (an image, a checkout, a download, the
build context), `file` is `base.File(action, name)`, `run` is
`base.Run(llb.Args(args), mounts, name).State`, `diff` is `llb.Diff(lower, upper, name)`
and `merge` is `llb.Merge(inputs, name)`. -/
inductive State where
  | scratch
  | source (id : String)
  | file (base : State) (action : FileAction State) (name : OpName)
  | run (base : State) (args : List String) (mounts : List (Mount State)) (name : OpName)
  | diff (lower upper : State) (name : OpName)
  | merge (inputs : List State) (name : OpName)

/-- The type `frontend.Spec`, with the two fields this package reads; `Sources` lists the
entries of the Go map in the order in which `range` yields them. -/
structure Spec (Source : Type) where
  Name : String
  Sources : List (String × Source)

/-- The collaborators of `specToLLB`: `frontend.Source2LLB`, `frontend.SourceIsDir`,
`os.Executable`, `filepath.EvalSymlinks`, the template (`specTmpl.Execute` on
`newSpecWrapper(spec, target)`, giving the bytes of the buffer) and the Unicode tables of
`strconv.IsPrint`. -/
structure Env (Source : Type) where
  Source2LLB : Source → Except GoError State
  SourceIsDir : Source → Except GoError Bool
  Executable : Except GoError String
  EvalSymlinks : String → Except GoError String
  specTmplExecute : Spec Source → String → Except GoError Bytes
  isPrintTable : Nat → Bool

/-- The call `fmt.Errorf(prefix + "%w", err)`. -/
def wrapf (pre : String) (err : GoError) : GoError :=
  .wrapError (pre ++ err.Error) err

/-! ## The graph compiler -/

section Compiler

variable {Source : Type}

/-- The body of the loop of `specToLLB` for the entry `(k, src)`, from the accumulated
state `out` and the list `diffs`; it gives their values after the iteration, or the error
that `specToLLB` returns. -/
def loopBody (env : Env Source) (localSt : State) (noMerge : Bool) (k : String) (src : Source)
    (out : State) (diffs : List State) : Except GoError (State × List State) :=
  match env.Source2LLB src with
  | .error err => .error (wrapf ("error converting source " ++ k ++ ": ") err)
  | .ok st =>
    match env.SourceIsDir src with
    | .error err => .error err
    | .ok isDir =>
      if isDir then
        match env.Executable with
        | .error err => .error (wrapf "error getting executable path: " err)
        | .ok exe =>
          match env.EvalSymlinks exe with
          | .error err => .error (wrapf "error resolving symlink for executable path: " err)
          | .ok exe =>
            let localPath := "/tmp/" ++ k ++ "/st"
            let dstPath := localPath ++ "Out/" ++ k ++ ".tar.gz"
            let localSrcWork := State.run localSt [exe, "tar", localPath, dstPath]
              [⟨localPath, st, true⟩]
              (.internal ("Create comrpessed tar of source " ++ Quote env.isPrintTable k))
            if noMerge then
              .ok (out.file (.copy localSrcWork dstPath "/SOURCES/")
                (.custom ("Copy archive of source " ++ Quote env.isPrintTable k ++
                  " to SOURCES")), diffs)
            else
              let st := State.scratch.file (.copy localSrcWork dstPath "/SOURCES/")
                (.custom ("Copy archive of source " ++ Quote env.isPrintTable k ++
                  " to SOURCES"))
              .ok (out, diffs ++ [.diff out st
                (.internal ("Diff source " ++ Quote env.isPrintTable k ++
                  " from empty SOURCES"))])
      else
        if noMerge then
          .ok (out.file (.copy st "/" "/SOURCES/")
            (.custom ("Copy file source for " ++ Quote env.isPrintTable k ++
              " to SOURCES")), diffs)
        else
          let st := State.scratch.file (.copy st "/" "/SOURCES/")
            (.internal ("Copy file source for " ++ Quote env.isPrintTable k ++
              " to SOURCES"))
          .ok (out, diffs ++ [.diff out st
            (.internal ("Diff source " ++ Quote env.isPrintTable k ++
              " from empty SOURCES"))])

/-- The loop `for k, src := range spec.Sources` of `specToLLB` over the entries in the
order of iteration: it stops at the first error. -/
def sourcesLoop (env : Env Source) (localSt : State) (noMerge : Bool) :
    List (String × Source) → State → List State → Except GoError (State × List State)
  | [], out, diffs => .ok (out, diffs)
  | (k, src) :: rest, out, diffs =>
    match loopBody env localSt noMerge k src out diffs with
    | .error err => .error err
    | .ok (out, diffs) => sourcesLoop env localSt noMerge rest out diffs

/-- The function `specToLLB`. On an error Go returns `llb.Scratch()` beside it, a
placeholder that the caller drops; here the result is then the error alone. -/
def specToLLB (env : Env Source) (spec : Spec Source) (localSt : State) (noMerge : Bool)
    (target : String) : Except GoError State :=
  let out := State.scratch.file (.mkdir "SOURCES" 0o755) (.internal "Create SOURCES dir")
  match sourcesLoop env localSt noMerge spec.Sources out [] with
  | .error err => .error err
  | .ok (out, diffs) =>
    let out :=
      if diffs.length > 0 then
        State.merge ([out] ++ diffs) (.custom "Merge sources into SOURCES dir")
      else out
    match env.specTmplExecute spec target with
    | .error err => .error (wrapf "could not generate rpm spec file: " err)
    | .ok buf =>
      let out := out.file (.mkdir "SPECS" 0o755) (.internal "Create SPECS dir")
      let out := out.file (.mkfile ("SPECS/" ++ spec.Name ++ ".spec") 0o640 buf)
        (.custom ("Generate rpm spec file - SPECS/" ++ spec.Name ++ ".spec"))
      .ok out

end Compiler

/-! ## The orchestrator -/

/-- An entry of `targets.List`. -/
structure Target where
  Name : String
  Default : Bool
  Description : String
  deriving DecidableEq, Repr

/-- A reference to a solved result (`gwclient.Reference`). -/
abbrev Reference := String

/-- The value `*gwclient.Result`: made from a list of targets (`targets.List.ToResult`),
from the description of the subrequests, or from the references of a build
(`ResultBuilder.Finalize`). -/
inductive Result where
  | ofTargets (list : List Target)
  | ofDescribe
  | ofBuild (refs : List Reference)
  deriving DecidableEq, Repr

/-- The calls that `Build` makes to its collaborators and to the graph compiler. -/
inductive Event where
  | NewClient
  | ReadEntrypoint
  | LoadSpec
  | CurrentFrontend
  | BuildOpts
  | specToLLB
  | Marshal
  | Solve
  | SingleRef
  | Finalize
  deriving DecidableEq, Repr

/-- What the gateway client and the build client answer during one call of `Build`:
the error of `dockerui.NewClient`, the option `requestid` of the build, the bytes of the
entrypoint, `frontend.LoadSpec` on the trimmed bytes and the build arguments, the state of
`CurrentFrontend`, whether the capabilities contain `pb.CapMergeOp`, the target, the target
platforms, `State.Marshal`, `Solve`, `SingleRef` and the error of `Finalize`. -/
structure Client (Source : Type) where
  NewClient : Option GoError
  requestid : Option String
  ReadEntrypoint : Except GoError Bytes
  LoadSpec : Bytes → Except GoError (Spec Source)
  CurrentFrontend : Except GoError State
  capMergeOp : Bool
  Target : String
  TargetPlatforms : List String
  Marshal : State → Except GoError Bytes
  Solve : Bytes → Except GoError Bytes
  SingleRef : Bytes → Except GoError Reference
  Finalize : List Reference → Option GoError

/-- The handlers of `dockerui.RequestHandler` that this frontend sets: `ListTargets`, with
the result of the callback and the calls it makes when it is run. -/
structure RequestHandler where
  ListTargets : Option (Except GoError (List Target) × List Event)

/-- The name of the subrequest that describes the subrequests
(`subrequests.RequestSubrequestsDescribe`). -/
def RequestSubrequestsDescribe : String := "frontend.subrequests.describe"

/-- The name of the outline subrequest (`outline.SubrequestsOutlineDefinition.Name`). -/
def SubrequestsOutlineName : String := "frontend.outline"

/-- The name of the list-targets subrequest (`targets.SubrequestsTargetsDefinition.Name`). -/
def SubrequestsTargetsName : String := "frontend.targets"

/-- The method `dockerui.Client.HandleSubrequest` of BuildKit: it gives the result, whether
the request was handled, and the error, with the calls made by the handler it ran. -/
def HandleSubrequest (requestid : Option String) (h : RequestHandler) :
    (Option Result × Bool × Option GoError) × List Event :=
  match requestid with
  | none => ((none, false, none), [])
  | some req =>
    if req = RequestSubrequestsDescribe then ((some .ofDescribe, true, none), [])
    else if req = SubrequestsOutlineName then ((none, false, none), [])
    else if req = SubrequestsTargetsName then
      match h.ListTargets with
      | none => ((none, false, none), [])
      | some (.error err, calls) => ((none, false, some err), calls)
      | some (.ok list, calls) => ((some (.ofTargets list), true, none), calls)
    else ((none, false, none), [])

section Orchestrator

variable {Source : Type}

/-- The function `loadSpec`, with the calls it makes. -/
def loadSpec (c : Client Source) : Except GoError (Spec Source) × List Event :=
  match c.ReadEntrypoint with
  | .error err => (.error (wrapf "could not read spec file: " err), [.ReadEntrypoint])
  | .ok data =>
    match c.LoadSpec data with
    | .error err => (.error (wrapf "error loading spec: " err), [.ReadEntrypoint, .LoadSpec])
    | .ok spec => (.ok spec, [.ReadEntrypoint, .LoadSpec])

/-- The function `handleSubrequest`. -/
def handleSubrequest (c : Client Source) :
    (Option Result × Bool × Option GoError) × List Event :=
  HandleSubrequest c.requestid
    { ListTargets := some (
        match loadSpec c with
        | (.error err, calls) => (.error err, calls)
        | (.ok _, calls) =>
          (.ok [{ Name := targetBuildroot, Default := true,
                  Description := "Outputs an rpm buildroot suitable for passing to rpmbuild" }],
            calls)) }

/-- The function that `Build` passes to `bc.Build`, run for one platform. -/
def buildPlatform (c : Client Source) (env : Env Source) (localSt : State) (noMerge : Bool) :
    Except GoError Reference × List Event :=
  match loadSpec c with
  | (.error err, calls) => (.error err, calls)
  | (.ok spec, calls) =>
    match validateTarget env.isPrintTable c.Target with
    | some err => (.error err, calls)
    | none =>
      match specToLLB env spec localSt noMerge c.Target with
      | .error err => (.error err, calls ++ [.specToLLB])
      | .ok st =>
        match c.Marshal st with
        | .error err =>
          (.error (wrapf "error marshalling llb: " err), calls ++ [.specToLLB, .Marshal])
        | .ok dt =>
          match c.Solve dt with
          | .error err => (.error err, calls ++ [.specToLLB, .Marshal, .Solve])
          | .ok res =>
            match c.SingleRef res with
            | .error err => (.error err, calls ++ [.specToLLB, .Marshal, .Solve, .SingleRef])
            | .ok ref => (.ok ref, calls ++ [.specToLLB, .Marshal, .Solve, .SingleRef])

/-- The method `dockerui.Client.Build` of BuildKit on the function of `Build`: one run for
each target platform, a single run when there is none. The runs are taken one after the
other here and the first error ends them. -/
def buildPlatforms (c : Client Source) (env : Env Source) (localSt : State) (noMerge : Bool) :
    Nat → Except GoError (List Reference) × List Event
  | 0 => (.ok [], [])
  | n + 1 =>
    match buildPlatform c env localSt noMerge with
    | (.error err, calls) => (.error err, calls)
    | (.ok ref, calls) =>
      match buildPlatforms c env localSt noMerge n with
      | (.error err, rest) => (.error err, calls ++ rest)
      | (.ok refs, rest) => (.ok (ref :: refs), calls ++ rest)

/-- The function `Build`: the result, the error, and the calls made in order. -/
def Build (c : Client Source) (env : Env Source) :
    (Option Result × Option GoError) × List Event :=
  match c.NewClient with
  | some err => ((none, some (wrapf "could not create build client: " err)), [.NewClient])
  | none =>
    match handleSubrequest c with
    | ((res, handled, err), calls) =>
      if err ≠ none ∨ handled = true then ((res, err), [.NewClient] ++ calls)
      else
        match c.CurrentFrontend with
        | .error err =>
          ((none, some (wrapf "could not get current frontend: " err)),
            [.NewClient] ++ calls ++ [.CurrentFrontend])
        | .ok localSt =>
          let noMerge := !c.capMergeOp
          match buildPlatforms c env localSt noMerge (max c.TargetPlatforms.length 1) with
          | (.error err, built) =>
            ((none, some err), [.NewClient] ++ calls ++ [.CurrentFrontend, .BuildOpts] ++ built)
          | (.ok refs, built) =>
            match c.Finalize refs with
            | some err =>
              ((none, some err),
                [.NewClient] ++ calls ++ [.CurrentFrontend, .BuildOpts] ++ built ++ [.Finalize])
            | none =>
              ((some (.ofBuild refs), none),
                [.NewClient] ++ calls ++ [.CurrentFrontend, .BuildOpts] ++ built ++ [.Finalize])

end Orchestrator

/-! ## The process -/

/-- How the process ends: it exits with a status, the status 0 when `main` returns. -/
abbrev ExitCode := Nat

/-- The function `main` of `cmd/frontend`: `run` is the error of
`grpcclient.RunFromEnvironment` on the handler of the mux, and `fatal` is what the call
`bklog.L.WithError(err).Fatal(msg)` does: `some code` when it ends the process with that
status, `none` when it returns. -/
def main (run : Option GoError) (fatal : GoError → String → Option ExitCode) : ExitCode :=
  match run with
  | some err =>
    match fatal err "error running frontend" with
    | some code => code
    | none => 137
  | none => 0

/-- The method `Entry.Fatal` of logrus, which `bklog.L` is an entry of: it writes the entry
and then calls `Logger.Exit(1)`, which runs `ExitFunc`, by default `os.Exit`; `main` does not
replace it. -/
def logrusFatal (_err : GoError) (_msg : String) : Option ExitCode := some 1

/-! ## Reading a graph -/

/-- A copy found in a graph: its source state, its source path and the name of its vertex. -/
structure CopyOp where
  src : State
  srcPath : String
  name : OpName

mutual
/-- The copies with destination `dst` in a graph, in the order in which the graph applies
them: the base of a vertex before its action, the inputs of a merge from first to last. -/
def copiesTo (dst : String) : State → List CopyOp
  | .scratch => []
  | .source _ => []
  | .file base action name => copiesTo dst base ++ copiesToAction dst name action
  | .run base _ mounts _ => copiesTo dst base ++ copiesToMounts dst mounts
  | .diff lower upper _ => copiesTo dst lower ++ copiesTo dst upper
  | .merge inputs _ => copiesToList dst inputs
/-- The copies with destination `dst` of a file action named `name` and of its source. -/
def copiesToAction (dst : String) (name : OpName) : FileAction State → List CopyOp
  | .mkdir _ _ => []
  | .mkfile _ _ _ => []
  | .copy src srcPath dstPath =>
    copiesTo dst src ++ (if dstPath = dst then [⟨src, srcPath, name⟩] else [])
/-- The copies with destination `dst` in the states of a list of mounts. -/
def copiesToMounts (dst : String) : List (Mount State) → List CopyOp
  | [] => []
  | m :: ms => copiesToMount dst m ++ copiesToMounts dst ms
/-- The copies with destination `dst` in the state of a mount. -/
def copiesToMount (dst : String) : Mount State → List CopyOp
  | ⟨_, src, _⟩ => copiesTo dst src
/-- The copies with destination `dst` in a list of states. -/
def copiesToList (dst : String) : List State → List CopyOp
  | [] => []
  | s :: ss => copiesTo dst s ++ copiesToList dst ss
end

mutual
/-- The number of diff and merge vertices of a graph. -/
def diffMergeCount : State → Nat
  | .scratch => 0
  | .source _ => 0
  | .file base action _ => diffMergeCount base + diffMergeCountAction action
  | .run base _ mounts _ => diffMergeCount base + diffMergeCountMounts mounts
  | .diff lower upper _ => 1 + diffMergeCount lower + diffMergeCount upper
  | .merge inputs _ => 1 + diffMergeCountList inputs
/-- The number of diff and merge vertices in the source of a file action. -/
def diffMergeCountAction : FileAction State → Nat
  | .mkdir _ _ => 0
  | .mkfile _ _ _ => 0
  | .copy src _ _ => diffMergeCount src
/-- The number of diff and merge vertices in the states of a list of mounts. -/
def diffMergeCountMounts : List (Mount State) → Nat
  | [] => 0
  | m :: ms => diffMergeCountMount m + diffMergeCountMounts ms
/-- The number of diff and merge vertices in the state of a mount. -/
def diffMergeCountMount : Mount State → Nat
  | ⟨_, src, _⟩ => diffMergeCount src
/-- The number of diff and merge vertices in a list of states. -/
def diffMergeCountList : List State → Nat
  | [] => 0
  | s :: ss => diffMergeCount s + diffMergeCountList ss
end

/-! ## The content of a graph

The engine's reading of a graph, as the specification states it: a merge overlays later
inputs on earlier ones, a diff keeps what the upper state adds to the lower one. -/

/-- A path: its components from the root. -/
abbrev Path := List String

/-- A directory with its mode, or a file with its mode and bytes. -/
inductive Node where
  | dir (mode : Nat)
  | file (mode : Nat) (data : Bytes)
  deriving DecidableEq, Repr

/-- The content of a state: the node at each path. -/
abbrev FS := Path → Option Node

/-- What the engine supplies: the content of each source vertex, and the root filesystem
left by a run from the content of its base, its arguments and its mounts. -/
structure Engine where
  sourceFS : String → FS
  execFS : FS → List String → List (String × FS × Bool) → FS

/-- The components of a path held in `cs`, after the component `cur` read so far (in
reverse): the separator is the slash and empty components are dropped. -/
def splitComponents : List Char → List Char → Path
  | [], cur => if cur = [] then [] else [String.mk cur.reverse]
  | c :: cs, cur =>
    if c = Char.ofNat 47 then
      if cur = [] then splitComponents cs [] else String.mk cur.reverse :: splitComponents cs []
    else splitComponents cs (c :: cur)

/-- The components of a path string, relative to the root. -/
def splitPath (s : String) : Path := splitComponents s.toList []

/-- The rest of path `p` below directory `d`, when `p` is `d` or lies below it. -/
def relativeTo : Path → Path → Option Path
  | [], p => some p
  | _ :: _, [] => none
  | a :: d, b :: p => if a = b then relativeTo d p else none

/-- The content of `llb.Scratch()`. -/
def emptyFS : FS := fun _ => none

/-- Modelled from the spec: the overlay that the engine's merge applies, which the
sources do not hold: the content `upper` laid over `lower`, the node of `upper` winning
where both have one ("later inputs overlaying earlier ones on path conflicts"). -/
def overlay (lower upper : FS) : FS := fun p =>
  match upper p with
  | some n => some n
  | none => lower p

/-- Modelled from the spec: the engine's mkdir, which the sources do not hold: the
directory is set at the path. -/
def mkdirFS (path : Path) (mode : Nat) (d : FS) : FS := fun p =>
  if p = path then some (.dir mode) else d p

/-- Modelled from the spec: the engine's mkfile, which the sources do not hold: the file
with its mode and bytes is set at the path. -/
def mkfileFS (path : Path) (mode : Nat) (data : Bytes) (d : FS) : FS := fun p =>
  if p = path then some (.file mode data) else d p

/-- Modelled from the spec: part of the engine's copy, which the sources do not hold: the
destination directory and its parents are made with mode 0755 where they are missing. -/
def mkdirAll (path : Path) (d : FS) : FS := fun p =>
  if p ≠ [] ∧ (relativeTo p path).isSome ∧ d p = none then some (.dir 0o755) else d p

/-- Modelled from the spec: what the engine's copy writes, which the sources do not hold:
the tree of `s` at `sp` goes into directory `dp` under the last component of `sp`; from
the root of `s`, its entries go into `dp`. -/
def copyEntries (s : FS) (sp dp : Path) : FS := fun p =>
  match relativeTo dp p with
  | some (c :: r) =>
    match sp.getLast? with
    | none => s (c :: r)
    | some base => if c = base then s (sp ++ r) else none
  | _ => none

/-- Modelled from the spec: the engine's copy, which the sources do not hold, onto the
content `d`: what the copy writes is laid over `d`. -/
def copyFS (s : FS) (sp dp : Path) (d : FS) : FS :=
  overlay (mkdirAll dp d) (copyEntries s sp dp)

/-- Modelled from the spec: the engine's diff, which the sources do not hold: what
`upper` adds to `lower`, the nodes of `upper` that `lower` does not have as they are. -/
def diffFS (lower upper : FS) : FS := fun p =>
  if upper p = lower p then none else upper p

/-- Modelled from the spec: the engine's merge, which the sources do not hold: each input
laid over the ones before it. -/
def mergeFS (inputs : List FS) : FS := inputs.foldl overlay emptyFS

mutual
/-- The content of a state. -/
def eval (E : Engine) : State → FS
  | .scratch => emptyFS
  | .source id => E.sourceFS id
  | .file base action _ => evalAction E action (eval E base)
  | .run base args mounts _ => E.execFS (eval E base) args (evalMounts E mounts)
  | .diff lower upper _ => diffFS (eval E lower) (eval E upper)
  | .merge inputs _ => mergeFS (evalList E inputs)
/-- The effect of a file action on a content. -/
def evalAction (E : Engine) : FileAction State → FS → FS
  | .mkdir path mode, d => mkdirFS (splitPath path) mode d
  | .mkfile path mode data, d => mkfileFS (splitPath path) mode data d
  | .copy src srcPath dstPath, d => copyFS (eval E src) (splitPath srcPath) (splitPath dstPath) d
/-- The mounts of a run, with the content of their states. -/
def evalMounts (E : Engine) : List (Mount State) → List (String × FS × Bool)
  | [] => []
  | m :: ms => evalMount E m :: evalMounts E ms
/-- A mount of a run, with the content of its state. -/
def evalMount (E : Engine) : Mount State → String × FS × Bool
  | ⟨target, src, readonly⟩ => (target, eval E src, readonly)
/-- The contents of a list of states. -/
def evalList (E : Engine) : List State → List FS
  | [] => []
  | s :: ss => eval E s :: evalList E ss
end

/-! ## The graph the specification describes -/

/-- The state `scratch + mkdir SOURCES` from which `specToLLB` starts. -/
def sourcesDir : State :=
  State.scratch.file (.mkdir "SOURCES" 0o755) (.internal "Create SOURCES dir")

/-- The archive path `/tmp/<k>/stOut/<k>.tar.gz` of a directory-shaped source. -/
def archivePath (k : String) : String := "/tmp/" ++ k ++ "/stOut/" ++ k ++ ".tar.gz"

/-- The run that archives the directory-shaped source `k`, resolved to `st`, with the
frontend executable `exe` on top of `localSt`. -/
def tarRun (table : Nat → Bool) (localSt : State) (exe k : String) (st : State) : State :=
  .run localSt [exe, "tar", "/tmp/" ++ k ++ "/st", archivePath k]
    [⟨"/tmp/" ++ k ++ "/st", st, true⟩]
    (.internal ("Create comrpessed tar of source " ++ Quote table k))

/-- The state a source is copied from: the archiving run for a directory-shaped source,
the resolved state itself for a file-shaped one. -/
def copySrc (table : Nat → Bool) (localSt : State) (exe k : String) (st : State)
    (isDir : Bool) : State :=
  if isDir then tarRun table localSt exe k st else st

/-- The path a source is copied from: the archive for a directory-shaped source, the root
for a file-shaped one. -/
def copyPath (k : String) (isDir : Bool) : String :=
  if isDir then archivePath k else "/"

/-- The name of the copy of source `k`. -/
def copyName (table : Nat → Bool) (k : String) (isDir noMerge : Bool) : OpName :=
  if isDir then .custom ("Copy archive of source " ++ Quote table k ++ " to SOURCES")
  else if noMerge then .custom ("Copy file source for " ++ Quote table k ++ " to SOURCES")
  else .internal ("Copy file source for " ++ Quote table k ++ " to SOURCES")

/-- The one copy for source `k` into `/SOURCES/`, applied to `base`. -/
def copyInto (table : Nat → Bool) (localSt : State) (exe : String) (noMerge : Bool)
    (base : State) (k : String) (st : State) (isDir : Bool) : State :=
  base.file (.copy (copySrc table localSt exe k st isDir) (copyPath k isDir) "/SOURCES/")
    (copyName table k isDir noMerge)

/-- The diff for source `k`: lower `base`, upper a fresh scratch with the one copy. -/
def sourceDiff (table : Nat → Bool) (localSt : State) (exe : String) (base : State)
    (k : String) (st : State) (isDir : Bool) : State :=
  .diff base (copyInto table localSt exe false .scratch k st isDir)
    (.internal ("Diff source " ++ Quote table k ++ " from empty SOURCES"))

/-- The two operations that end the graph: `mkdir SPECS` with mode 0755, then
`mkfile SPECS/<name>.spec` with mode 0640 and the bytes `b`. -/
def specsOps (name : String) (b : Bytes) (acc : State) : State :=
  (acc.file (.mkdir "SPECS" 0o755) (.internal "Create SPECS dir")).file
    (.mkfile ("SPECS/" ++ name ++ ".spec") 0o640 b)
    (.custom ("Generate rpm spec file - SPECS/" ++ name ++ ".spec"))

/-- The sources all resolve: each one to the state `st` and the flag `isDir` of its
descriptor, and for a directory-shaped source the executable path resolves to `exe`. -/
def Resolves {Source : Type} (env : Env Source) (sources : List (String × Source))
    (st : Source → State) (isDir : Source → Bool) (exe : String) : Prop :=
  ∀ e ∈ sources, env.Source2LLB e.2 = .ok (st e.2) ∧ env.SourceIsDir e.2 = .ok (isDir e.2) ∧
    (isDir e.2 = true → ∃ exe0, env.Executable = .ok exe0 ∧ env.EvalSymlinks exe0 = .ok exe)

/-- What the copy of source `k` writes under `/SOURCES/`, in the engine `E`. -/
def sourceEntries (E : Engine) (table : Nat → Bool) (localSt : State) (exe k : String)
    (st : State) (isDir : Bool) : FS :=
  copyEntries (eval E (copySrc table localSt exe k st isDir)) (splitPath (copyPath k isDir))
    (splitPath "/SOURCES/")

/-! ## Examples -/

/-- An environment over sources named by strings: a source whose name starts with `d` is
a directory, every source resolves to the vertex of its name, the executable is
`/frontend` and the template gives the bytes of the package name. -/
def demoEnv : Env String where
  Source2LLB := fun src => .ok (.source src)
  SourceIsDir := fun src => .ok (src.toList.head? = some (Char.ofNat 100))
  Executable := .ok "/frontend"
  EvalSymlinks := fun exe => .ok exe
  specTmplExecute := fun spec _ => .ok (spec.Name.toList.map Char.toNat)
  isPrintTable := fun _ => false

/-- A package `demo` with a directory-shaped source `a` and a file-shaped source `b`. -/
def demoSpec : Spec String := ⟨"demo", [("a", "dir"), ("b", "file")]⟩

/-- The state each source of the examples resolves to. -/
def demoSt (src : String) : State := .source src

/-- The flag of each source of the examples. -/
def demoIsDir (src : String) : Bool := src.toList.head? = some (Char.ofNat 100)

/-- The environment of the examples, except that `frontend.SourceIsDir` fails. -/
def isDirFailsEnv : Env String :=
  { demoEnv with SourceIsDir := fun _ => .error (.errorString "cannot stat") }

/-- A client that sends the list-targets subrequest for the package `demo`. -/
def demoClient : Client String where
  NewClient := none
  requestid := some "frontend.targets"
  ReadEntrypoint := .ok []
  LoadSpec := fun _ => .ok demoSpec
  CurrentFrontend := .ok (.source "local")
  capMergeOp := true
  Target := ""
  TargetPlatforms := []
  Marshal := fun _ => .ok []
  Solve := fun _ => .ok []
  SingleRef := fun _ => .ok "ref"
  Finalize := fun _ => none

/-- An engine in which every source vertex holds one file `f` whose bytes are the name of
the vertex, and a run leaves one file at `/tmp/a/stOut/a.tar.gz`. -/
def demoEngine : Engine where
  sourceFS := fun id p => if p = ["f"] then some (.file 0o644 (id.toList.map Char.toNat)) else none
  execFS := fun _ _ _ p =>
    if p = ["tmp", "a", "stOut", "a.tar.gz"] then some (.file 0o644 [1, 2, 3]) else none

/-! ## The loop of the compiler -/

section Loop

variable {Source : Type}

theorem dstPath_eq (k : String) :
    "/tmp/" ++ k ++ "/st" ++ "Out/" ++ k ++ ".tar.gz" = archivePath k := by
  have h : "/tmp/" ++ k ++ "/st" ++ "Out/" = "/tmp/" ++ k ++ "/stOut/" := by
    rw [String.append_assoc ("/tmp/" ++ k) "/st" "Out/"]
    rfl
  unfold archivePath
  rw [h]

theorem loopBody_of_resolved (env : Env Source) (localSt : State) (noMerge : Bool)
    (k : String) (src : Source) (out : State) (diffs : List State)
    (st : State) (isDir : Bool) (exe : String)
    (h1 : env.Source2LLB src = .ok st) (h2 : env.SourceIsDir src = .ok isDir)
    (h3 : isDir = true → ∃ exe0, env.Executable = .ok exe0 ∧ env.EvalSymlinks exe0 = .ok exe) :
    loopBody env localSt noMerge k src out diffs =
      .ok (if noMerge then
          (copyInto env.isPrintTable localSt exe true out k st isDir, diffs)
        else (out, diffs ++ [sourceDiff env.isPrintTable localSt exe out k st isDir])) := by
  unfold loopBody
  rw [h1, h2]
  cases isDir with
  | false =>
    cases noMerge <;> simp [copyInto, sourceDiff, copySrc, copyPath, copyName]
  | true =>
    obtain ⟨exe0, he0, he⟩ := h3 rfl
    rw [he0]
    simp only [he]
    cases noMerge <;>
      simp [copyInto, sourceDiff, copySrc, copyPath, copyName, tarRun, dstPath_eq]

theorem sourcesLoop_inPlace (env : Env Source) (localSt : State)
    (st : Source → State) (isDir : Source → Bool) (exe : String) :
    ∀ (sources : List (String × Source)) (out : State) (diffs : List State),
      Resolves env sources st isDir exe →
      sourcesLoop env localSt true sources out diffs =
        .ok (sources.foldl (fun o e =>
          copyInto env.isPrintTable localSt exe true o e.1 (st e.2) (isDir e.2)) out, diffs) := by
  intro sources
  induction sources with
  | nil => intro out diffs _; rfl
  | cons e rest ih =>
    intro out diffs hres
    obtain ⟨k, src⟩ := e
    obtain ⟨h1, h2, h3⟩ := hres (k, src) (List.mem_cons_self _ _)
    have hrest : Resolves env rest st isDir exe :=
      fun e he => hres e (List.mem_cons_of_mem _ he)
    simp only [sourcesLoop]
    rw [loopBody_of_resolved env localSt true k src out diffs (st src) (isDir src) exe h1 h2 h3]
    simp only [if_true]
    rw [ih _ _ hrest]
    rfl

theorem sourcesLoop_merge (env : Env Source) (localSt : State)
    (st : Source → State) (isDir : Source → Bool) (exe : String) :
    ∀ (sources : List (String × Source)) (out : State) (diffs : List State),
      Resolves env sources st isDir exe →
      sourcesLoop env localSt false sources out diffs =
        .ok (out, diffs ++ sources.map (fun e =>
          sourceDiff env.isPrintTable localSt exe out e.1 (st e.2) (isDir e.2))) := by
  intro sources
  induction sources with
  | nil => intro out diffs _; simp [sourcesLoop]
  | cons e rest ih =>
    intro out diffs hres
    obtain ⟨k, src⟩ := e
    obtain ⟨h1, h2, h3⟩ := hres (k, src) (List.mem_cons_self _ _)
    have hrest : Resolves env rest st isDir exe :=
      fun e he => hres e (List.mem_cons_of_mem _ he)
    simp only [sourcesLoop]
    rw [loopBody_of_resolved env localSt false k src out diffs (st src) (isDir src) exe h1 h2 h3]
    simp only [Bool.false_eq_true, if_false]
    rw [ih _ _ hrest]
    simp

theorem specToLLB_inPlace (env : Env Source) (spec : Spec Source) (localSt : State)
    (target : String) (st : Source → State) (isDir : Source → Bool) (exe : String) (b : Bytes)
    (hres : Resolves env spec.Sources st isDir exe)
    (htmpl : env.specTmplExecute spec target = .ok b) :
    specToLLB env spec localSt true target =
      .ok (specsOps spec.Name b (spec.Sources.foldl (fun o e =>
        copyInto env.isPrintTable localSt exe true o e.1 (st e.2) (isDir e.2)) sourcesDir)) := by
  unfold specToLLB
  have h := sourcesLoop_inPlace env localSt st isDir exe spec.Sources sourcesDir [] hres
  unfold sourcesDir at h
  simp only [h, htmpl]
  simp [specsOps, sourcesDir]

theorem specToLLB_merge (env : Env Source) (spec : Spec Source) (localSt : State)
    (target : String) (st : Source → State) (isDir : Source → Bool) (exe : String) (b : Bytes)
    (hres : Resolves env spec.Sources st isDir exe)
    (htmpl : env.specTmplExecute spec target = .ok b) :
    specToLLB env spec localSt false target =
      .ok (specsOps spec.Name b
        (if spec.Sources.isEmpty then sourcesDir
         else .merge (sourcesDir :: spec.Sources.map (fun e =>
            sourceDiff env.isPrintTable localSt exe sourcesDir e.1 (st e.2) (isDir e.2)))
            (.custom "Merge sources into SOURCES dir"))) := by
  unfold specToLLB
  have h := sourcesLoop_merge env localSt st isDir exe spec.Sources sourcesDir [] hres
  unfold sourcesDir at h
  simp only [h, htmpl]
  cases hs : spec.Sources with
  | nil => simp [specsOps, sourcesDir]
  | cons e rest => simp [specsOps, sourcesDir]

theorem copiesTo_copySrc (table : Nat → Bool) (localSt : State) (exe k : String) (st : State)
    (isDir : Bool) (dst : String)
    (hst : copiesTo dst st = []) (hloc : copiesTo dst localSt = []) :
    copiesTo dst (copySrc table localSt exe k st isDir) = [] := by
  cases isDir <;>
    simp [copySrc, tarRun, copiesTo, copiesToMounts, copiesToMount, hst, hloc]

theorem copiesTo_foldl_copyInto (table : Nat → Bool) (localSt : State) (exe : String)
    (st : Source → State) (isDir : Source → Bool) (hloc : copiesTo "/SOURCES/" localSt = []) :
    ∀ (sources : List (String × Source)) (out : State),
      (∀ e ∈ sources, copiesTo "/SOURCES/" (st e.2) = []) →
      copiesTo "/SOURCES/" (sources.foldl (fun o e =>
          copyInto table localSt exe true o e.1 (st e.2) (isDir e.2)) out) =
        copiesTo "/SOURCES/" out ++ sources.map (fun e =>
          (⟨copySrc table localSt exe e.1 (st e.2) (isDir e.2), copyPath e.1 (isDir e.2),
            copyName table e.1 (isDir e.2) true⟩ : CopyOp)) := by
  intro sources
  induction sources with
  | nil => intro out _; simp
  | cons e rest ih =>
    intro out hsrc
    have h1 := hsrc e (List.mem_cons_self _ _)
    rw [List.foldl_cons, ih _ (fun e he => hsrc e (List.mem_cons_of_mem _ he))]
    simp [copyInto, copiesTo, copiesToAction,
      copiesTo_copySrc table localSt exe e.1 (st e.2) (isDir e.2) "/SOURCES/" h1 hloc]

theorem copiesToList_map_sourceDiff (table : Nat → Bool) (localSt : State) (exe : String)
    (st : Source → State) (isDir : Source → Bool) (hloc : copiesTo "/SOURCES/" localSt = []) :
    ∀ (sources : List (String × Source)),
      (∀ e ∈ sources, copiesTo "/SOURCES/" (st e.2) = []) →
      copiesToList "/SOURCES/" (sources.map (fun e =>
          sourceDiff table localSt exe sourcesDir e.1 (st e.2) (isDir e.2))) =
        sources.map (fun e =>
          (⟨copySrc table localSt exe e.1 (st e.2) (isDir e.2), copyPath e.1 (isDir e.2),
            copyName table e.1 (isDir e.2) false⟩ : CopyOp)) := by
  intro sources
  induction sources with
  | nil => intro _; simp [copiesToList]
  | cons e rest ih =>
    intro hsrc
    have h1 := hsrc e (List.mem_cons_self _ _)
    rw [List.map_cons, copiesToList, ih (fun e he => hsrc e (List.mem_cons_of_mem _ he))]
    simp [sourceDiff, copyInto, copiesTo, copiesToAction, sourcesDir,
      copiesTo_copySrc table localSt exe e.1 (st e.2) (isDir e.2) "/SOURCES/" h1 hloc]

theorem copiesTo_specToLLB (env : Env Source) (spec : Spec Source) (localSt : State)
    (noMerge : Bool) (target : String) (st : Source → State) (isDir : Source → Bool)
    (exe : String) (b : Bytes)
    (hres : Resolves env spec.Sources st isDir exe)
    (htmpl : env.specTmplExecute spec target = .ok b)
    (hsrc : ∀ e ∈ spec.Sources, copiesTo "/SOURCES/" (st e.2) = [])
    (hloc : copiesTo "/SOURCES/" localSt = []) :
    ∃ g, specToLLB env spec localSt noMerge target = .ok g ∧
      copiesTo "/SOURCES/" g = spec.Sources.map (fun e =>
        (⟨copySrc env.isPrintTable localSt exe e.1 (st e.2) (isDir e.2),
          copyPath e.1 (isDir e.2), copyName env.isPrintTable e.1 (isDir e.2) noMerge⟩ :
          CopyOp)) := by
  cases noMerge with
  | true =>
    refine ⟨_, specToLLB_inPlace env spec localSt target st isDir exe b hres htmpl, ?_⟩
    simp only [specsOps, copiesTo, copiesToAction, List.append_nil]
    rw [copiesTo_foldl_copyInto env.isPrintTable localSt exe st isDir hloc _ _ hsrc]
    simp [sourcesDir, copiesTo, copiesToAction]
  | false =>
    refine ⟨_, specToLLB_merge env spec localSt target st isDir exe b hres htmpl, ?_⟩
    simp only [specsOps, copiesTo, copiesToAction, List.append_nil]
    cases hs : spec.Sources.isEmpty with
    | true =>
      have hnil : spec.Sources = [] := List.isEmpty_iff.mp hs
      simp [hnil, sourcesDir, copiesTo, copiesToAction]
    | false =>
      simp only [Bool.false_eq_true, if_false, copiesTo, copiesToList]
      rw [copiesToList_map_sourceDiff env.isPrintTable localSt exe st isDir hloc _ hsrc]
      simp [sourcesDir, copiesTo, copiesToAction]

theorem diffMergeCount_foldl_copyInto (table : Nat → Bool) (localSt : State) (exe : String)
    (st : Source → State) (isDir : Source → Bool) (hloc : diffMergeCount localSt = 0) :
    ∀ (sources : List (String × Source)) (out : State),
      (∀ e ∈ sources, diffMergeCount (st e.2) = 0) →
      diffMergeCount (sources.foldl (fun o e =>
          copyInto table localSt exe true o e.1 (st e.2) (isDir e.2)) out) =
        diffMergeCount out := by
  intro sources
  induction sources with
  | nil => intro out _; rfl
  | cons e rest ih =>
    intro out hsrc
    have h1 := hsrc e (List.mem_cons_self _ _)
    rw [List.foldl_cons, ih _ (fun e he => hsrc e (List.mem_cons_of_mem _ he))]
    cases hd : isDir e.2 <;>
      simp [copyInto, copySrc, tarRun, diffMergeCount, diffMergeCountAction,
        diffMergeCountMounts, diffMergeCountMount, hd, h1, hloc]

theorem demo_resolves : Resolves demoEnv demoSpec.Sources demoSt demoIsDir "/frontend" := by
  intro e he
  refine ⟨rfl, rfl, fun _ => ⟨"/frontend", rfl, rfl⟩⟩

end Loop

/-! ## The content of the compiled graph -/

section Content

variable {Source : Type}

theorem splitPath_sources : splitPath "/SOURCES/" = ["SOURCES"] := by decide

theorem splitPath_sources_rel : splitPath "SOURCES" = ["SOURCES"] := by decide

theorem relativeTo_single (p : Path) (a : String) :
    (p ≠ [] ∧ (relativeTo p [a]).isSome) ↔ p = [a] := by
  constructor
  · rintro ⟨hne, hsome⟩
    cases p with
    | nil => exact absurd rfl hne
    | cons b q =>
      unfold relativeTo at hsome
      by_cases hb : b = a
      · subst hb
        cases q with
        | nil => rfl
        | cons c r => simp [relativeTo] at hsome
      · simp [hb] at hsome
  · rintro rfl
    simp [relativeTo]

theorem copyEntries_below (s : FS) (sp : Path) (a : String) (p : Path) (n : Node)
    (h : copyEntries s sp [a] p = some n) : ∃ c r, p = a :: c :: r := by
  unfold copyEntries at h
  cases p with
  | nil => simp [relativeTo] at h
  | cons b q =>
    by_cases hb : a = b
    · subst hb
      cases q with
      | nil => simp [relativeTo] at h
      | cons c r => exact ⟨c, r, rfl⟩
    · simp [relativeTo, hb] at h

theorem copyEntries_at_dir (s : FS) (sp : Path) (a : String) :
    copyEntries s sp [a] [a] = none := by
  cases h : copyEntries s sp [a] [a] with
  | none => rfl
  | some n =>
    obtain ⟨c, r, hp⟩ := copyEntries_below s sp a [a] n h
    simp at hp

theorem mkdirAll_of_some (a : String) (d : FS) (h : d [a] ≠ none) : mkdirAll [a] d = d := by
  funext p
  unfold mkdirAll
  by_cases hp : p = [a]
  · subst hp
    simp [h]
  · have : ¬ (p ≠ [] ∧ (relativeTo p [a]).isSome = true) := fun hc =>
      hp ((relativeTo_single p a).mp hc)
    have hcond : ¬ (p ≠ [] ∧ (relativeTo p [a]).isSome = true ∧ d p = none) :=
      fun hc => this ⟨hc.1, hc.2.1⟩
    rw [if_neg hcond]

theorem mkdirAll_empty (a : String) : mkdirAll [a] emptyFS = mkdirFS [a] 0o755 emptyFS := by
  funext p
  unfold mkdirAll mkdirFS
  by_cases hp : p = [a]
  · subst hp
    simp [relativeTo, emptyFS]
  · have hcond : ¬ (p ≠ [] ∧ (relativeTo p [a]).isSome = true ∧ emptyFS p = none) :=
      fun hc => hp ((relativeTo_single p a).mp ⟨hc.1, hc.2.1⟩)
    rw [if_neg hcond, if_neg hp]

theorem eval_sourcesDir (E : Engine) : eval E sourcesDir = mkdirFS ["SOURCES"] 0o755 emptyFS := by
  simp [sourcesDir, eval, evalAction, splitPath_sources_rel]

theorem overlay_empty_left (d : FS) : overlay emptyFS d = d := by
  funext p
  unfold overlay emptyFS
  cases d p <;> rfl

theorem eval_copyInto (E : Engine) (table : Nat → Bool) (localSt : State) (exe : String)
    (noMerge : Bool) (out : State) (k : String) (st : State) (isDir : Bool)
    (hout : eval E out ["SOURCES"] ≠ none) :
    eval E (copyInto table localSt exe noMerge out k st isDir) =
      overlay (eval E out) (sourceEntries E table localSt exe k st isDir) := by
  simp only [copyInto, eval, evalAction, copyFS, sourceEntries, splitPath_sources]
  rw [mkdirAll_of_some "SOURCES" _ hout]

theorem eval_sourceDiff (E : Engine) (table : Nat → Bool) (localSt : State) (exe : String)
    (k : String) (st : State) (isDir : Bool) :
    eval E (sourceDiff table localSt exe sourcesDir k st isDir) =
      sourceEntries E table localSt exe k st isDir := by
  have hd : eval E (sourceDiff table localSt exe sourcesDir k st isDir) =
      diffFS (eval E sourcesDir) (copyFS (eval E (copySrc table localSt exe k st isDir))
        (splitPath (copyPath k isDir)) (splitPath "/SOURCES/") emptyFS) := by
    simp only [sourceDiff, copyInto, eval, evalAction]
  rw [hd, eval_sourcesDir]
  funext p
  simp only [sourceEntries, splitPath_sources, copyFS, mkdirAll_empty]
  unfold diffFS overlay
  cases h : copyEntries (eval E (copySrc table localSt exe k st isDir))
      (splitPath (copyPath k isDir)) ["SOURCES"] p with
  | none => simp
  | some n =>
    obtain ⟨c, r, hp⟩ := copyEntries_below _ _ _ _ _ h
    subst hp
    simp [mkdirFS, emptyFS]

theorem overlay_sourceEntries_at_dir (E : Engine) (table : Nat → Bool) (localSt : State)
    (exe k : String) (st : State) (isDir : Bool) (d : FS) :
    overlay d (sourceEntries E table localSt exe k st isDir) ["SOURCES"] = d ["SOURCES"] := by
  unfold overlay sourceEntries
  rw [splitPath_sources, copyEntries_at_dir]

theorem eval_foldl_copyInto (E : Engine) (table : Nat → Bool) (localSt : State) (exe : String)
    (st : Source → State) (isDir : Source → Bool) :
    ∀ (sources : List (String × Source)) (out : State),
      eval E out ["SOURCES"] ≠ none →
      eval E (sources.foldl (fun o e =>
          copyInto table localSt exe true o e.1 (st e.2) (isDir e.2)) out) =
        (sources.map (fun e =>
          sourceEntries E table localSt exe e.1 (st e.2) (isDir e.2))).foldl overlay
          (eval E out) := by
  intro sources
  induction sources with
  | nil => intro out _; rfl
  | cons e rest ih =>
    intro out hout
    rw [List.foldl_cons, List.map_cons, List.foldl_cons]
    have hstep := eval_copyInto E table localSt exe true out e.1 (st e.2) (isDir e.2) hout
    rw [ih]
    · rw [hstep]
    · rw [hstep, overlay_sourceEntries_at_dir]
      exact hout

theorem evalList_map_sourceDiff (E : Engine) (table : Nat → Bool) (localSt : State)
    (exe : String) (st : Source → State) (isDir : Source → Bool) :
    ∀ (sources : List (String × Source)),
      evalList E (sources.map (fun e =>
          sourceDiff table localSt exe sourcesDir e.1 (st e.2) (isDir e.2))) =
        sources.map (fun e => sourceEntries E table localSt exe e.1 (st e.2) (isDir e.2)) := by
  intro sources
  induction sources with
  | nil => rfl
  | cons e rest ih =>
    rw [List.map_cons, evalList, ih, eval_sourceDiff]
    rfl

theorem eval_merge_cons (E : Engine) (s : State) (ss : List State) (name : OpName) :
    eval E (.merge (s :: ss) name) = (evalList E ss).foldl overlay (eval E s) := by
  simp only [eval, evalList, mergeFS, List.foldl_cons, overlay_empty_left]

theorem eval_strategies (E : Engine) (table : Nat → Bool) (localSt : State) (exe : String)
    (st : Source → State) (isDir : Source → Bool) (sources : List (String × Source)) :
    eval E (if sources.isEmpty then sourcesDir
        else .merge (sourcesDir :: sources.map (fun e =>
          sourceDiff table localSt exe sourcesDir e.1 (st e.2) (isDir e.2)))
          (.custom "Merge sources into SOURCES dir")) =
      eval E (sources.foldl (fun o e =>
        copyInto table localSt exe true o e.1 (st e.2) (isDir e.2)) sourcesDir) := by
  have hdir : eval E sourcesDir ["SOURCES"] ≠ none := by
    rw [eval_sourcesDir]
    simp [mkdirFS]
  rw [eval_foldl_copyInto E table localSt exe st isDir sources sourcesDir hdir]
  cases sources with
  | nil => rfl
  | cons e rest =>
    rw [List.isEmpty_cons, if_neg (by simp), eval_merge_cons, evalList_map_sourceDiff]

theorem eval_specsOps (E : Engine) (name : String) (b : Bytes) (acc : State) :
    eval E (specsOps name b acc) =
      mkfileFS (splitPath ("SPECS/" ++ name ++ ".spec")) 0o640 b
        (mkdirFS (splitPath "SPECS") 0o755 (eval E acc)) := by
  simp only [specsOps, eval, evalAction]

theorem archivePath_injective (k1 k2 : String) (h : archivePath k1 = archivePath k2) :
    k1 = k2 := by
  unfold archivePath at h
  have hd := congrArg String.data h
  simp only [String.data_append, List.append_assoc] at hd
  have hlen := congrArg List.length hd
  simp only [List.length_append] at hlen
  have hk : k1.data.length = k2.data.length := by omega
  have h1 := List.append_cancel_left hd
  exact String.ext (List.append_inj_left h1 hk)

theorem splitComponents_word (w : List Char) (hw : Char.ofNat 47 ∉ w) :
    ∀ (rest cur : List Char),
      splitComponents (w ++ rest) cur = splitComponents rest (w.reverse ++ cur) := by
  induction w with
  | nil => intro rest cur; rfl
  | cons c w ih =>
    intro rest cur
    have hc : c ≠ Char.ofNat 47 := fun h => hw (h ▸ List.mem_cons_self _ _)
    have hw2 : Char.ofNat 47 ∉ w := fun h => hw (List.mem_cons_of_mem _ h)
    rw [List.cons_append, splitComponents, if_neg hc, ih hw2]
    simp

theorem splitComponents_last (w : List Char) (hw : Char.ofNat 47 ∉ w) (hne : w ≠ []) :
    ∀ (l cur : List Char),
      (splitComponents (l ++ Char.ofNat 47 :: w) cur).getLast? = some (String.mk w) := by
  have hword : splitComponents w [] = [String.mk w] := by
    have h := splitComponents_word w hw [] []
    rw [List.append_nil, List.append_nil] at h
    rw [h, splitComponents, if_neg (by simpa using hne), List.reverse_reverse]
  intro l
  induction l with
  | nil =>
    intro cur
    rw [List.nil_append, splitComponents, if_pos rfl]
    by_cases hcur : cur = []
    · rw [if_pos hcur, hword]
      rfl
    · rw [if_neg hcur, hword]
      rfl
  | cons c l ih =>
    intro cur
    rw [List.cons_append, splitComponents]
    by_cases hc : c = Char.ofNat 47
    · rw [if_pos hc]
      by_cases hcur : cur = []
      · rw [if_pos hcur]
        exact ih []
      · rw [if_neg hcur]
        have h := ih []
        cases hsp : splitComponents (l ++ Char.ofNat 47 :: w) [] with
        | nil => rw [hsp] at h; simp at h
        | cons x xs => rw [hsp] at h; rw [List.getLast?_cons_cons]; exact h
    · rw [if_neg hc]
      exact ih _

theorem splitPath_archivePath_last (k : String) (hk : Char.ofNat 47 ∉ k.toList) :
    (splitPath (archivePath k)).getLast? = some (k ++ ".tar.gz") := by
  have hw : Char.ofNat 47 ∉ k.toList ++ ".tar.gz".toList := by
    intro h
    rcases List.mem_append.mp h with h | h
    · exact hk h
    · revert h
      decide
  have hne : k.toList ++ ".tar.gz".toList ≠ [] := by
    intro h
    have := congrArg List.length h
    simp at this
  have hsplit : (archivePath k).toList =
      ("/tmp/".toList ++ k.toList ++ "/stOut".toList) ++
        Char.ofNat 47 :: (k.toList ++ ".tar.gz".toList) := by
    unfold archivePath
    simp only [String.toList, String.data_append, List.append_assoc]
    rfl
  unfold splitPath
  rw [hsplit, splitComponents_last _ hw hne]
  congr 1

theorem copyEntries_archive_lands (s : FS) (k : String) (hk : Char.ofNat 47 ∉ k.toList)
    (p : Path) (n : Node)
    (h : copyEntries s (splitPath (archivePath k)) (splitPath "/SOURCES/") p = some n) :
    ∃ r, p = "SOURCES" :: (k ++ ".tar.gz") :: r ∧ s (splitPath (archivePath k) ++ r) = some n := by
  rw [splitPath_sources] at h
  obtain ⟨c, r, hp⟩ := copyEntries_below _ _ _ _ _ h
  subst hp
  unfold copyEntries at h
  simp only [relativeTo, if_true, splitPath_archivePath_last k hk] at h
  by_cases hc : c = k ++ ".tar.gz"
  · rw [if_pos hc] at h
    exact ⟨r, by rw [hc], h⟩
  · rw [if_neg hc] at h
    cases h

theorem copyEntries_root (s : FS) (c : String) (r : Path) :
    copyEntries s (splitPath "/") (splitPath "/SOURCES/") ("SOURCES" :: c :: r) = s (c :: r) := by
  have h : splitPath "/" = [] := by decide
  rw [h, splitPath_sources]
  simp [copyEntries, relativeTo]

end Content

/-! ## Targets: results -/

theorem appendEscapedRune_plain (table : Nat → Bool) (r : Char) (h : plainRune r = true) :
    appendEscapedRune table r = [r] := by
  unfold plainRune at h
  simp only [decide_eq_true_eq] at h
  obtain ⟨h1, h2, h3, h4⟩ := h
  have hp : IsPrint table r = true := by
    unfold IsPrint
    rw [if_pos (by omega), if_pos ⟨h1, h2⟩]
  unfold appendEscapedRune
  simp only [h3, h4, or_self, if_false, hp, if_true]

theorem Quote_plain (table : Nat → Bool) (t : String)
    (h : ∀ r ∈ t.toList, plainRune r = true) : Quote table t = "\"" ++ t ++ "\"" := by
  have hflat : ∀ l : List Char, (∀ r ∈ l, plainRune r = true) →
      l.flatMap (appendEscapedRune table) = l := by
    intro l
    induction l with
    | nil => intro _; rfl
    | cons r l ih =>
      intro hl
      rw [List.flatMap_cons, appendEscapedRune_plain table r (hl r (List.mem_cons_self _ _)),
        ih (fun r hr => hl r (List.mem_cons_of_mem _ hr))]
      rfl
  unfold Quote
  rw [hflat _ h]
  apply String.ext
  simp [String.data_append]

/-- C4: `validateTarget t` is nil exactly when `t` is empty or a member of the known
targets, whose only member is `buildroot`; for every other `t` it is the error whose
message is `unknown target` followed by `t` quoted as the verb `%q` does, which is `t`
itself between double quotes when `t` is made of printable ASCII other than the double
quote and the backslash; for `foo` the message is `unknown target "foo"`. -/
theorem validateTarget_spec (table : Nat → Bool) (t : String) :
    (validateTarget table t = none ↔ (t = "" ∨ t ∈ builtinTargets)) ∧
    (∀ x, x ∈ builtinTargets ↔ x = "buildroot") ∧
    (validateTarget table t =
      if t = "" ∨ t ∈ builtinTargets then none
      else some (.errorString ("unknown target " ++ Quote table t))) ∧
    ((∀ r ∈ t.toList, plainRune r = true) → Quote table t = "\"" ++ t ++ "\"") ∧
    (validateTarget table "foo").map GoError.Error = some "unknown target \"foo\"" := by
  refine ⟨?_, ?_, ?_, Quote_plain table t, ?_⟩
  · unfold validateTarget
    by_cases h1 : t = ""
    · simp [h1]
    · by_cases h2 : t ∈ builtinTargets <;> simp [h1, h2]
  · intro x
    simp [builtinTargets, targetBuildroot]
  · unfold validateTarget
    by_cases h1 : t = ""
    · simp [h1]
    · by_cases h2 : t ∈ builtinTargets <;> simp [h1, h2]
  · rfl

/-- Witness of C4 on the target `foo`. -/
theorem validateTarget_spec_witness :
    (∀ r ∈ "foo".toList, plainRune r = true) ∧
    validateTarget (fun _ => false) "foo" = some (.errorString "unknown target \"foo\"") ∧
    Quote (fun _ => false) "foo" = "\"" ++ "foo" ++ "\"" :=
  have h := validateTarget_spec (fun _ => false) "foo"
  ⟨by decide, by rw [h.2.2.1]; rfl, h.2.2.2.1 (by decide)⟩

/-! ## The graph compiler: results -/

section CompilerResults

variable {Source : Type}

/-- C7: when the sources all resolve, the loop gives an accumulated state `out` and a list
`diffs`, and if the template renders to `b` the result of `specToLLB` is the accumulated
sources state (`out`, or the merge of `out` and `diffs` when there are diffs) followed by
`mkdir SPECS` with mode 0755 and then `mkfile SPECS/<name>.spec` with mode 0640 and
content `b`; if the template fails the result is an error and no graph. -/
theorem metadata_layout (env : Env Source) (spec : Spec Source) (localSt : State)
    (noMerge : Bool) (target : String) (st : Source → State) (isDir : Source → Bool)
    (exe : String) (hres : Resolves env spec.Sources st isDir exe) :
    (∀ b, env.specTmplExecute spec target = .ok b →
      ∃ out diffs, sourcesLoop env localSt noMerge spec.Sources sourcesDir [] = .ok (out, diffs) ∧
        specToLLB env spec localSt noMerge target =
          .ok (State.file
            (State.file
              (if diffs.length > 0 then
                State.merge (out :: diffs) (.custom "Merge sources into SOURCES dir")
               else out)
              (.mkdir "SPECS" 0o755) (.internal "Create SPECS dir"))
            (.mkfile ("SPECS/" ++ spec.Name ++ ".spec") 0o640 b)
            (.custom ("Generate rpm spec file - SPECS/" ++ spec.Name ++ ".spec")))) ∧
    (∀ err, env.specTmplExecute spec target = .error err →
      specToLLB env spec localSt noMerge target =
        .error (.wrapError ("could not generate rpm spec file: " ++ err.Error) err)) := by
  have hloop : ∃ out diffs,
      sourcesLoop env localSt noMerge spec.Sources sourcesDir [] = .ok (out, diffs) := by
    cases noMerge with
    | true => exact ⟨_, _, sourcesLoop_inPlace env localSt st isDir exe _ _ _ hres⟩
    | false => exact ⟨_, _, sourcesLoop_merge env localSt st isDir exe _ _ _ hres⟩
  obtain ⟨out, diffs, hl⟩ := hloop
  constructor
  · intro b hb
    refine ⟨out, diffs, hl, ?_⟩
    unfold specToLLB
    unfold sourcesDir at hl
    simp only [hl, hb]
    rfl
  · intro err herr
    unfold specToLLB
    unfold sourcesDir at hl
    simp only [hl, herr]
    rfl

/-- Witness of C7 on the package `demo`, with the merge strategy. -/
theorem metadata_layout_witness :
    Resolves demoEnv demoSpec.Sources demoSt demoIsDir "/frontend" ∧
    ((∀ b, demoEnv.specTmplExecute demoSpec "" = .ok b →
      ∃ out diffs, sourcesLoop demoEnv (.source "local") false demoSpec.Sources sourcesDir [] =
          .ok (out, diffs) ∧
        specToLLB demoEnv demoSpec (.source "local") false "" =
          .ok (State.file
            (State.file
              (if diffs.length > 0 then
                State.merge (out :: diffs) (.custom "Merge sources into SOURCES dir")
               else out)
              (.mkdir "SPECS" 0o755) (.internal "Create SPECS dir"))
            (.mkfile ("SPECS/" ++ demoSpec.Name ++ ".spec") 0o640 b)
            (.custom ("Generate rpm spec file - SPECS/" ++ demoSpec.Name ++ ".spec")))) ∧
    (∀ err, demoEnv.specTmplExecute demoSpec "" = .error err →
      specToLLB demoEnv demoSpec (.source "local") false "" =
        .error (.wrapError ("could not generate rpm spec file: " ++ err.Error) err))) :=
  ⟨demo_resolves,
    metadata_layout demoEnv demoSpec (.source "local") false "" demoSt demoIsDir "/frontend"
      demo_resolves⟩

/-- C3: when the sources all resolve and the template renders, and neither the resolved
states nor the frontend state hold a copy into `/SOURCES/` of their own, the graph that
`specToLLB` returns, for either value of `noMerge`, holds as many copies into `/SOURCES/`
as the spec has sources, and they are, entry by entry in the order of processing, the one
copy of each source: none missing, none twice. -/
theorem source_completeness (env : Env Source) (spec : Spec Source) (localSt : State)
    (noMerge : Bool) (target : String) (st : Source → State) (isDir : Source → Bool)
    (exe : String) (b : Bytes)
    (hres : Resolves env spec.Sources st isDir exe)
    (htmpl : env.specTmplExecute spec target = .ok b)
    (hsrc : ∀ e ∈ spec.Sources, copiesTo "/SOURCES/" (st e.2) = [])
    (hloc : copiesTo "/SOURCES/" localSt = []) :
    ∃ g, specToLLB env spec localSt noMerge target = .ok g ∧
      (copiesTo "/SOURCES/" g).length = spec.Sources.length ∧
      (copiesTo "/SOURCES/" g).map (fun c => c.name) =
        spec.Sources.map (fun e => copyName env.isPrintTable e.1 (isDir e.2) noMerge) ∧
      (copiesTo "/SOURCES/" g).map (fun c => c.src) =
        spec.Sources.map (fun e =>
          if isDir e.2 then tarRun env.isPrintTable localSt exe e.1 (st e.2) else st e.2) := by
  obtain ⟨g, hg, hc⟩ :=
    copiesTo_specToLLB env spec localSt noMerge target st isDir exe b hres htmpl hsrc hloc
  refine ⟨g, hg, ?_, ?_, ?_⟩
  · rw [hc, List.length_map]
  · rw [hc, List.map_map]
    rfl
  · rw [hc, List.map_map]
    rfl

/-- Witness of C3 on the package `demo`, with the in-place strategy. -/
theorem source_completeness_witness :
    Resolves demoEnv demoSpec.Sources demoSt demoIsDir "/frontend" ∧
    demoEnv.specTmplExecute demoSpec "" = .ok [100, 101, 109, 111] ∧
    (∀ e ∈ demoSpec.Sources, copiesTo "/SOURCES/" (demoSt e.2) = []) ∧
    copiesTo "/SOURCES/" (.source "local") = [] ∧
    ∃ g, specToLLB demoEnv demoSpec (.source "local") true "" = .ok g ∧
      (copiesTo "/SOURCES/" g).length = demoSpec.Sources.length ∧
      (copiesTo "/SOURCES/" g).map (fun c => c.name) =
        demoSpec.Sources.map (fun e => copyName demoEnv.isPrintTable e.1 (demoIsDir e.2) true) ∧
      (copiesTo "/SOURCES/" g).map (fun c => c.src) =
        demoSpec.Sources.map (fun e =>
          if demoIsDir e.2 then
            tarRun demoEnv.isPrintTable (.source "local") "/frontend" e.1 (demoSt e.2)
          else demoSt e.2) :=
  ⟨demo_resolves, rfl, fun _ _ => rfl, rfl,
    source_completeness demoEnv demoSpec (.source "local") true "" demoSt demoIsDir "/frontend"
      [100, 101, 109, 111] demo_resolves rfl (fun _ _ => rfl) rfl⟩

/-- C1: when the sources all resolve and the template renders, `specToLLB` returns a graph
with the merge strategy (`noMerge = false`) and a graph with the in-place strategy
(`noMerge = true`), and in every engine the two graphs have the same content: the same
node, with the same bytes, at every path. -/
theorem strategy_equivalence (env : Env Source) (spec : Spec Source) (localSt : State)
    (target : String) (st : Source → State) (isDir : Source → Bool) (exe : String) (b : Bytes)
    (hres : Resolves env spec.Sources st isDir exe)
    (htmpl : env.specTmplExecute spec target = .ok b) :
    ∃ g1 g2, specToLLB env spec localSt false target = .ok g1 ∧
      specToLLB env spec localSt true target = .ok g2 ∧
      ∀ (E : Engine) (p : Path), eval E g1 p = eval E g2 p := by
  refine ⟨_, _, specToLLB_merge env spec localSt target st isDir exe b hres htmpl,
    specToLLB_inPlace env spec localSt target st isDir exe b hres htmpl, ?_⟩
  intro E p
  rw [eval_specsOps, eval_specsOps, eval_strategies]

/-- Witness of C1 on the package `demo`. -/
theorem strategy_equivalence_witness :
    Resolves demoEnv demoSpec.Sources demoSt demoIsDir "/frontend" ∧
    demoEnv.specTmplExecute demoSpec "" = .ok [100, 101, 109, 111] ∧
    ∃ g1 g2, specToLLB demoEnv demoSpec (.source "local") false "" = .ok g1 ∧
      specToLLB demoEnv demoSpec (.source "local") true "" = .ok g2 ∧
      ∀ (E : Engine) (p : Path), eval E g1 p = eval E g2 p :=
  ⟨demo_resolves, rfl,
    strategy_equivalence demoEnv demoSpec (.source "local") "" demoSt demoIsDir "/frontend"
      [100, 101, 109, 111] demo_resolves rfl⟩

/-- C10: when the sources all resolve and the template renders, with `noMerge = false` the
loop leaves the accumulated state as it was, `base = scratch + mkdir SOURCES`; the state
before the SPECS operations is `base` itself when there is no source, and otherwise one
merge whose inputs are `base` followed, in the order of processing, by one diff for each
source, with lower `base` and upper a fresh scratch with the one copy of that source into
`/SOURCES/`. With `noMerge = true` the graph has no diff and no merge vertex, when the
resolved states and the frontend state have none of their own. -/
theorem merge_strategy_shape (env : Env Source) (spec : Spec Source) (localSt : State)
    (target : String) (st : Source → State) (isDir : Source → Bool) (exe : String) (b : Bytes)
    (hres : Resolves env spec.Sources st isDir exe)
    (htmpl : env.specTmplExecute spec target = .ok b) :
    (∃ diffs, sourcesLoop env localSt false spec.Sources sourcesDir [] =
      .ok (sourcesDir, diffs)) ∧
    (spec.Sources = [] →
      specToLLB env spec localSt false target = .ok (specsOps spec.Name b sourcesDir)) ∧
    (spec.Sources ≠ [] →
      specToLLB env spec localSt false target =
        .ok (specsOps spec.Name b
          (.merge (sourcesDir :: spec.Sources.map (fun e =>
              State.diff sourcesDir
                (State.scratch.file
                  (.copy (copySrc env.isPrintTable localSt exe e.1 (st e.2) (isDir e.2))
                    (copyPath e.1 (isDir e.2)) "/SOURCES/")
                  (copyName env.isPrintTable e.1 (isDir e.2) false))
                (.internal ("Diff source " ++ Quote env.isPrintTable e.1 ++
                  " from empty SOURCES"))))
            (.custom "Merge sources into SOURCES dir")))) ∧
    ((∀ e ∈ spec.Sources, diffMergeCount (st e.2) = 0) → diffMergeCount localSt = 0 →
      ∃ g, specToLLB env spec localSt true target = .ok g ∧ diffMergeCount g = 0) := by
  have hm := specToLLB_merge env spec localSt target st isDir exe b hres htmpl
  refine ⟨⟨_, sourcesLoop_merge env localSt st isDir exe _ _ _ hres⟩, ?_, ?_, ?_⟩
  · intro hnil
    rw [hm, hnil]
    rfl
  · intro hne
    rw [hm]
    have he : spec.Sources.isEmpty = false := by
      cases hs : spec.Sources with
      | nil => exact absurd hs hne
      | cons e rest => rfl
    rw [he]
    rfl
  · intro hsrc hloc
    refine ⟨_, specToLLB_inPlace env spec localSt target st isDir exe b hres htmpl, ?_⟩
    simp only [specsOps, diffMergeCount, diffMergeCountAction]
    rw [diffMergeCount_foldl_copyInto env.isPrintTable localSt exe st isDir hloc _ _ hsrc]
    rfl

/-- Witness of C10 on the package `demo`. -/
theorem merge_strategy_shape_witness :
    Resolves demoEnv demoSpec.Sources demoSt demoIsDir "/frontend" ∧
    demoEnv.specTmplExecute demoSpec "" = .ok [100, 101, 109, 111] ∧
    demoSpec.Sources ≠ [] ∧
    (∀ e ∈ demoSpec.Sources, diffMergeCount (demoSt e.2) = 0) ∧
    diffMergeCount (.source "local") = 0 ∧
    specToLLB demoEnv demoSpec (.source "local") false "" =
      .ok (specsOps "demo" [100, 101, 109, 111]
        (.merge [sourcesDir,
          .diff sourcesDir
            (State.scratch.file
              (.copy (tarRun (fun _ => false) (.source "local") "/frontend" "a" (.source "dir"))
                "/tmp/a/stOut/a.tar.gz" "/SOURCES/")
              (.custom "Copy archive of source \"a\" to SOURCES"))
            (.internal "Diff source \"a\" from empty SOURCES"),
          .diff sourcesDir
            (State.scratch.file (.copy (.source "file") "/" "/SOURCES/")
              (.internal "Copy file source for \"b\" to SOURCES"))
            (.internal "Diff source \"b\" from empty SOURCES")]
          (.custom "Merge sources into SOURCES dir"))) ∧
    ∃ g, specToLLB demoEnv demoSpec (.source "local") true "" = .ok g ∧ diffMergeCount g = 0 :=
  have h := merge_strategy_shape demoEnv demoSpec (.source "local") "" demoSt demoIsDir
    "/frontend" [100, 101, 109, 111] demo_resolves rfl
  ⟨demo_resolves, rfl, by simp [demoSpec], fun _ _ => rfl, rfl,
    h.2.2.1 (by simp [demoSpec]), h.2.2.2 (fun _ _ => rfl) rfl⟩

/-- C5, as stated, fails: two file-shaped sources with the distinct keys `b` and `c` are
both copied from the root of their resolved state, and the graph then holds the one
artifact `SOURCES/f`, named by the content of that state, and nothing at `SOURCES/b` or
`SOURCES/c`; and the archives of the directory-shaped keys `x/a` and `y/a` have the same
last component `a.tar.gz`. -/
theorem artifact_name_not_from_key :
    (∃ g, specToLLB demoEnv ⟨"demo", [("b", "file"), ("c", "file")]⟩ (.source "local") true ""
        = .ok g ∧
      (copiesTo "/SOURCES/" g).map (fun c => c.srcPath) = ["/", "/"] ∧
      eval demoEngine g ["SOURCES", "f"] = some (.file 0o644 [102, 105, 108, 101]) ∧
      eval demoEngine g ["SOURCES", "b"] = none ∧
      eval demoEngine g ["SOURCES", "c"] = none) ∧
    (splitPath (archivePath "x/a")).getLast? = some "a.tar.gz" ∧
    (splitPath (archivePath "y/a")).getLast? = some "a.tar.gz" := by
  refine ⟨⟨_, rfl, rfl, ?_, ?_, ?_⟩, by decide, by decide⟩ <;> decide

/-- C5, amended: when the sources all resolve and the template renders (and the resolved
states and the frontend state hold no copy into `/SOURCES/` of their own), the copies into
`/SOURCES/` of the graph are, source by source: for a directory-shaped source `k`, a copy
from the archive path `/tmp/<k>/stOut/<k>.tar.gz`, and distinct keys give distinct archive
paths; for a file-shaped source, a copy from the root `/` of its resolved state. When `k`
has no slash, whatever the copy of the archive writes is at `SOURCES/<k>.tar.gz`; the copy
of a root writes each entry of the resolved state under `SOURCES/` with the name it has in
that state. -/
theorem copy_source_paths (env : Env Source) (spec : Spec Source) (localSt : State)
    (noMerge : Bool) (target : String) (st : Source → State) (isDir : Source → Bool)
    (exe : String) (b : Bytes)
    (hres : Resolves env spec.Sources st isDir exe)
    (htmpl : env.specTmplExecute spec target = .ok b)
    (hsrc : ∀ e ∈ spec.Sources, copiesTo "/SOURCES/" (st e.2) = [])
    (hloc : copiesTo "/SOURCES/" localSt = []) :
    (∃ g, specToLLB env spec localSt noMerge target = .ok g ∧
      (copiesTo "/SOURCES/" g).map (fun c => c.srcPath) =
        spec.Sources.map (fun e =>
          if isDir e.2 then "/tmp/" ++ e.1 ++ "/stOut/" ++ e.1 ++ ".tar.gz" else "/")) ∧
    (∀ k1 k2 : String, archivePath k1 = archivePath k2 → k1 = k2) ∧
    (∀ (k : String) (s : FS) (p : Path) (n : Node), Char.ofNat 47 ∉ k.toList →
      copyEntries s (splitPath (archivePath k)) (splitPath "/SOURCES/") p = some n →
      ∃ r, p = "SOURCES" :: (k ++ ".tar.gz") :: r) ∧
    (∀ (s : FS) (c : String) (r : Path),
      copyEntries s (splitPath "/") (splitPath "/SOURCES/") ("SOURCES" :: c :: r) =
        s (c :: r)) := by
  refine ⟨?_, archivePath_injective, ?_, copyEntries_root⟩
  · obtain ⟨g, hg, hc⟩ :=
      copiesTo_specToLLB env spec localSt noMerge target st isDir exe b hres htmpl hsrc hloc
    refine ⟨g, hg, ?_⟩
    rw [hc, List.map_map]
    rfl
  · intro k s p n hk h
    obtain ⟨r, hp, _⟩ := copyEntries_archive_lands s k hk p n h
    exact ⟨r, hp⟩

/-- Witness of C5, amended, on the package `demo`. -/
theorem copy_source_paths_witness :
    Resolves demoEnv demoSpec.Sources demoSt demoIsDir "/frontend" ∧
    demoEnv.specTmplExecute demoSpec "" = .ok [100, 101, 109, 111] ∧
    (∀ e ∈ demoSpec.Sources, copiesTo "/SOURCES/" (demoSt e.2) = []) ∧
    copiesTo "/SOURCES/" (.source "local") = [] ∧
    ∃ g, specToLLB demoEnv demoSpec (.source "local") false "" = .ok g ∧
      (copiesTo "/SOURCES/" g).map (fun c => c.srcPath) =
        demoSpec.Sources.map (fun e =>
          if demoIsDir e.2 then "/tmp/" ++ e.1 ++ "/stOut/" ++ e.1 ++ ".tar.gz" else "/") :=
  ⟨demo_resolves, rfl, fun _ _ => rfl, rfl,
    (copy_source_paths demoEnv demoSpec (.source "local") false "" demoSt demoIsDir "/frontend"
      [100, 101, 109, 111] demo_resolves rfl (fun _ _ => rfl) rfl).1⟩

/-- C2: the graph depends on the order in which the map of sources is iterated: for the
two orders of the same two entries `a` and `b`, `specToLLB` returns different graphs, with
the copies into `/SOURCES/` in different orders, for each value of `noMerge`. -/
theorem iteration_order_changes_graph :
    List.Perm [("a", "dir"), ("b", "file")] [("b", "file"), ("a", "dir")] ∧
    ∀ noMerge : Bool,
      specToLLB demoEnv ⟨"demo", [("a", "dir"), ("b", "file")]⟩ (.source "local") noMerge "" ≠
        specToLLB demoEnv ⟨"demo", [("b", "file"), ("a", "dir")]⟩ (.source "local") noMerge "" ∧
      (specToLLB demoEnv ⟨"demo", [("a", "dir"), ("b", "file")]⟩ (.source "local") noMerge
          "").toOption.map (fun g => (copiesTo "/SOURCES/" g).map (fun c => c.srcPath)) =
        some ["/tmp/a/stOut/a.tar.gz", "/"] ∧
      (specToLLB demoEnv ⟨"demo", [("b", "file"), ("a", "dir")]⟩ (.source "local") noMerge
          "").toOption.map (fun g => (copiesTo "/SOURCES/" g).map (fun c => c.srcPath)) =
        some ["/", "/tmp/a/stOut/a.tar.gz"] := by
  refine ⟨List.Perm.swap _ _ _, ?_⟩
  intro noMerge
  have h1 : (specToLLB demoEnv ⟨"demo", [("a", "dir"), ("b", "file")]⟩ (.source "local") noMerge
      "").toOption.map (fun g => (copiesTo "/SOURCES/" g).map (fun c => c.srcPath)) =
      some ["/tmp/a/stOut/a.tar.gz", "/"] := by
    cases noMerge <;> rfl
  have h2 : (specToLLB demoEnv ⟨"demo", [("b", "file"), ("a", "dir")]⟩ (.source "local") noMerge
      "").toOption.map (fun g => (copiesTo "/SOURCES/" g).map (fun c => c.srcPath)) =
      some ["/", "/tmp/a/stOut/a.tar.gz"] := by
    cases noMerge <;> rfl
  refine ⟨?_, h1, h2⟩
  intro heq
  rw [heq, h2] at h1
  revert h1
  decide

/-- C6: when `frontend.SourceIsDir` fails for the source `src1`, `specToLLB` returns the
error of `SourceIsDir` as it is: it wraps nothing and its message does not name `src1`. -/
theorem sourceIsDir_error_not_wrapped :
    ∀ noMerge : Bool,
      specToLLB isDirFailsEnv ⟨"demo", [("src1", "file")]⟩ (.source "local") noMerge "" =
        .error (.errorString "cannot stat") ∧
      (GoError.errorString "cannot stat").Unwrap = none ∧
      ¬ ("src1".toList <:+: (GoError.errorString "cannot stat").Error.toList) := by
  intro noMerge
  refine ⟨?_, rfl, by decide⟩
  cases noMerge <;> rfl

/-- The error of `frontend.Source2LLB` is wrapped with the key: when the entries before
`(k, src)` resolve and `Source2LLB` fails on `src`, `specToLLB` returns the error whose
message is `error converting source <k>: ` followed by the message of the cause. -/
theorem source2LLB_error_wrapped (env : Env Source) (spec : Spec Source) (localSt : State)
    (noMerge : Bool) (target : String) (st : Source → State) (isDir : Source → Bool)
    (exe : String) (before after : List (String × Source)) (k : String) (src : Source)
    (err : GoError)
    (hs : spec.Sources = before ++ (k, src) :: after)
    (hres : Resolves env before st isDir exe)
    (herr : env.Source2LLB src = .error err) :
    specToLLB env spec localSt noMerge target =
      .error (.wrapError ("error converting source " ++ k ++ ": " ++ err.Error) err) := by
  have hloop : ∀ (l : List (String × Source)) (out : State) (diffs : List State),
      Resolves env l st isDir exe →
      sourcesLoop env localSt noMerge (l ++ (k, src) :: after) out diffs =
        .error (.wrapError ("error converting source " ++ k ++ ": " ++ err.Error) err) := by
    intro l
    induction l with
    | nil =>
      intro out diffs _
      simp [sourcesLoop, loopBody, herr, wrapf]
    | cons e rest ih =>
      intro out diffs hl
      obtain ⟨k1, src1⟩ := e
      obtain ⟨h1, h2, h3⟩ := hl (k1, src1) (List.mem_cons_self _ _)
      simp only [List.cons_append, sourcesLoop]
      rw [loopBody_of_resolved env localSt noMerge k1 src1 out diffs (st src1) (isDir src1)
        exe h1 h2 h3]
      exact ih _ _ (fun e he => hl e (List.mem_cons_of_mem _ he))
  unfold specToLLB
  simp only [hs, hloop before _ _ hres]

end CompilerResults

/-! ## The orchestrator and the process: results -/

section OrchestratorResults

variable {Source : Type}

/-- C8: when the build client is created and the request is the list-targets subrequest,
`Build` returns the catalog with the one entry `buildroot`, default, with its description,
if the spec loads, and the error of the load if it does not; in both cases the only calls
made are the creation of the client and those of the load, so the current frontend is not
asked for and neither `specToLLB`, nor the marshalling, nor the solve is run. -/
theorem list_targets_short_circuit (c : Client Source) (env : Env Source)
    (hclient : c.NewClient = none) (hreq : c.requestid = some SubrequestsTargetsName) :
    (∀ spec, (loadSpec c).1 = .ok spec →
      (Build c env).1 =
        (some (.ofTargets [⟨"buildroot", true,
          "Outputs an rpm buildroot suitable for passing to rpmbuild"⟩]), none)) ∧
    (∀ err, (loadSpec c).1 = .error err → (Build c env).1 = (none, some err)) ∧
    (Build c env).2 = Event.NewClient :: (loadSpec c).2 ∧
    Event.CurrentFrontend ∉ (Build c env).2 ∧ Event.specToLLB ∉ (Build c env).2 ∧
    Event.Marshal ∉ (Build c env).2 ∧ Event.Solve ∉ (Build c env).2 := by
  have hb : (Build c env).2 = Event.NewClient :: (loadSpec c).2 ∧
      (∀ spec, (loadSpec c).1 = .ok spec →
        (Build c env).1 =
          (some (.ofTargets [⟨"buildroot", true,
            "Outputs an rpm buildroot suitable for passing to rpmbuild"⟩]), none)) ∧
      (∀ err, (loadSpec c).1 = .error err → (Build c env).1 = (none, some err)) := by
    unfold Build handleSubrequest HandleSubrequest
    rw [hclient, hreq]
    cases hl : loadSpec c with
    | mk r calls =>
      cases r with
      | error e =>
        simp [SubrequestsTargetsName, RequestSubrequestsDescribe, SubrequestsOutlineName]
      | ok spec =>
        simp [SubrequestsTargetsName, RequestSubrequestsDescribe, SubrequestsOutlineName,
          targetBuildroot]
  obtain ⟨ht, hok, herr⟩ := hb
  have hload : ∀ ev ∈ (loadSpec c).2, ev = Event.ReadEntrypoint ∨ ev = Event.LoadSpec := by
    intro ev hev
    unfold loadSpec at hev
    cases h1 : c.ReadEntrypoint with
    | error e => simp [h1] at hev; exact Or.inl hev
    | ok data =>
      cases h2 : c.LoadSpec data with
      | error e => simp [h1, h2] at hev; exact hev
      | ok spec => simp [h1, h2] at hev; exact hev
  refine ⟨hok, herr, ht, ?_, ?_, ?_, ?_⟩ <;>
  · rw [ht]
    intro hmem
    rcases List.mem_cons.mp hmem with h | h
    · cases h
    · rcases hload _ h with h | h <;> cases h

/-- Witness of C8: the list-targets subrequest for the package `demo`. -/
theorem list_targets_short_circuit_witness :
    demoClient.NewClient = none ∧ demoClient.requestid = some SubrequestsTargetsName ∧
    (Build demoClient demoEnv).1 =
      (some (.ofTargets [⟨"buildroot", true,
        "Outputs an rpm buildroot suitable for passing to rpmbuild"⟩]), none) ∧
    (Build demoClient demoEnv).2 = [.NewClient, .ReadEntrypoint, .LoadSpec] :=
  have h := list_targets_short_circuit demoClient demoEnv rfl rfl
  ⟨rfl, rfl, h.1 demoSpec rfl, h.2.2.1⟩

/-- C9: when running the frontend returns an error, `main` calls `Fatal` on the logger
before `os.Exit(137)`; `Fatal` of logrus ends the process with status 1, so the process
exits with status 1 and not 137. The status is 137 only with a `Fatal` that returns. -/
theorem main_exit_status (err : GoError) :
    main (some err) logrusFatal = 1 ∧ main (some err) logrusFatal ≠ 137 ∧
    main (some err) (fun _ _ => none) = 137 := by
  refine ⟨rfl, ?_, rfl⟩
  show (1 : Nat) ≠ 137
  decide

end OrchestratorResults

end Dalec
